import Mathlib

/-!
Shallow embedding of the python-bchlib binding layer.

The repository contains four historical revisions of the CPython binding
module bchlib.c:
  * src/unnamed/part_000      -- the current binding (BCH_init, BCH_encode,
                                 BCH_decode, BCH_correct, BCH_compute_even_syn)
  * src/src/bchlib.c          -- an intermediate revision with a persistent
                                 msg_len accumulator
  * src/unnamed/part_003      -- an older revision (BCH_decode_inplace and
                                 friends, byte-order reversal)
  * src/bchlib/bchlib.c       -- the oldest Python-2 era revision (Bch_correct)

The BCH core itself (bch.c / bch.h: bch_init, bch_encode, bch_decode,
bch_compute_even_syndromes) is not under src/.  Where a claim depends on the
outcome of a core call, that outcome is passed to the embedded binding as an
explicit CoreResult value, and definitions that stand in for missing core
code carry a doc comment starting with: Modelled from the spec.
-/

namespace PyBchlib

/-- Python-level error outcomes of a binding call.  valueError, typeError,
indexError, runtimeError and overflowError model PyErr_SetString with the
corresponding exception type; nullReturn models a NULL return from the
C function with no exception set. -/
inductive PyErr where
  | valueError (msg : String)
  | typeError (msg : String)
  | indexError (msg : String)
  | runtimeError (msg : String)
  | overflowError (msg : String)
  | nullReturn
deriving DecidableEq

instance {α β : Type} [DecidableEq α] [DecidableEq β] : DecidableEq (Except α β) :=
fun a b =>
  match a, b with
  | .error x, .error y =>
    if h : x = y then .isTrue (by rw [h]) else .isFalse (by intro hc; cases hc; exact h rfl)
  | .error _, .ok _ => .isFalse (by intro hc; cases hc)
  | .ok _, .error _ => .isFalse (by intro hc; cases hc)
  | .ok x, .ok y =>
    if h : x = y then .isTrue (by rw [h]) else .isFalse (by intro hc; cases hc; exact h rfl)

/-- A Py_buffer as seen by the binding: its byte contents and whether the
exporting object is read-only. -/
structure Buffer where
  bytes : List Nat
  readonly : Bool
deriving DecidableEq

/-- The fields of struct bch_control (bch.h) that the binding layer reads.
The tables and generator polynomial of the core are not needed by any
claim about the binding. -/
structure BchControl where
  m : Nat
  t : Nat
  ecc_bytes : Nat
  prim_poly : Nat
deriving DecidableEq

/-- The mutable per-object state of the part_000 binding: self->nerr and
self->errloc, written by BCH_decode and read by BCH_correct. -/
structure BCHState where
  nerr : Int
  errloc : List Nat
deriving DecidableEq

/-- The mutable per-object state of the src/src/bchlib.c binding:
self->nerr, self->errloc and the accumulated self->msg_len. -/
structure SrcState where
  nerr : Int
  errloc : List Nat
  msg_len : Nat
deriving DecidableEq

/-- Modelled from the spec: the outcome of a call to the core decoder
bch_decode (bch.c, which is not under src/): a nonnegative count of located
errors together with the bit locations it wrote into the errloc array, or a
negative errno value (-EINVAL for invalid parameters, -EBADMSG when the word
is uncorrectable, spec sections 4.5-4.6 and 7). -/
structure CoreResult where
  nerr : Int
  errloc : List Nat
deriving DecidableEq

/-- errno EINVAL on Linux. -/
def EINVAL : Int := 22

/-- errno EBADMSG on Linux. -/
def EBADMSG : Int := 74

/-- One bit flip as performed by the correct loops:
buf[byte] ^= 1 << bit (part_000 line 234 and the analogous lines of the
other revisions).  Out-of-range indices leave the list unchanged, matching
the fact that the C code never reaches them on the inputs we consider. -/
def flipByte (l : List Nat) (i k : Nat) : List Nat :=
  l.set i (l.getD i 0 ^^^ (1 <<< k))

/-- reverse_bytes per-byte transform from src/bchlib/bchlib.c lines 37-45 and
src/unnamed/part_003 lines 37-45:
(b * 0x0202020202ULL and 0x010884422010ULL) mod 1023. -/
def rev8 (b : Nat) : Nat :=
  (b * 0x0202020202 &&& 0x010884422010) % 1023

/-- reverse_bytes applied to a whole buffer (the C walks the buffer applying
the per-byte transform). -/
def reverseBytes (l : List Nat) : List Nat :=
  l.map rev8

/-- Specification-side byte bit-reversal: bit i of the input becomes
bit 7 - i of the output (b7 b6 ... b0 to b0 b1 ... b7). -/
def rev8spec (b : Nat) : Nat :=
  (List.range 8).foldl (fun acc i => acc + (if b.testBit i then 2 ^ (7 - i) else 0)) 0

/-- The while (tmp >>= 1) m++ loop of BCH_init (part_000 lines 64-70,
src/src/bchlib.c lines 85-91): tmp is a 32-bit unsigned int, so 32 steps of
fuel always suffice. -/
def mFromPolyGo : Nat → Nat → Nat → Nat
  | 0, _, m => m
  | fuel + 1, tmp, m => if tmp / 2 = 0 then m else mFromPolyGo fuel (tmp / 2) (m + 1)

/-- m computed from the primitive polynomial when m is not supplied:
the number of right shifts of poly until it becomes zero, minus one,
i.e. the index of its highest set bit. -/
def mFromPoly (poly : Nat) : Nat :=
  mFromPolyGo 32 poly 0

/-- Argument validation and m selection of BCH_init (part_000 lines 45-90,
src/src/bchlib.c lines 66-101), up to the call of the core bch_init (which is
not under src/).  m = none models the C sentinel m == -1 (parameter not
supplied).  On success the returned triple is exactly the (m, t, prim_poly)
passed to bch_init; on failure bch_init is never called and no codec object
is produced. -/
def BCH_init_args (t : Int) (prim_poly : Nat) (m : Option Nat) :
    Except PyErr (Nat × Int × Nat) :=
  match m with
  | some mv => .ok (mv, t, prim_poly)
  | none =>
    if prim_poly = 0 then
      .error (.valueError "m and/or poly must be provided")
    else
      .ok (mFromPoly prim_poly, t, prim_poly)

/-- The recv_ecc / calc_ecc length guard of BCH_decode (part_000 lines
135-145): an ecc buffer, when supplied, must have exactly ecc_bytes bytes. -/
def eccLenBad (bch : BchControl) (b : Option Buffer) : Bool :=
  match b with
  | some x => x.bytes.length != bch.ecc_bytes
  | none => false

/-- The syn length guard of BCH_decode (part_000 lines 156-161): a supplied
syndrome sequence must have exactly 2*t elements. -/
def synLenBad (bch : BchControl) (syn : Option (List Nat)) : Bool :=
  match syn with
  | some s => s.length != 2 * bch.t
  | none => false

/-- BCH_decode of the part_000 binding (lines 121-194).  The binding
validates buffer and syndrome lengths, calls the core bch_decode (absent
from src/; its outcome is the explicit core argument), stores the outcome
in self->nerr / self->errloc, and maps negative outcomes: -EINVAL raises
ValueError, -EBADMSG is replaced by the sentinel -1 and returned as a
normal integer, any other negative value propagates a NULL return.
The copy of a supplied syn sequence into self->bch->syn is not modelled:
no modelled observable reads it. -/
def BCH_decode (bch : BchControl) (st : BCHState)
    (data recvEcc calcEcc : Option Buffer) (syn : Option (List Nat))
    (core : CoreResult) : BCHState × Except PyErr Int :=
  if eccLenBad bch recvEcc then
    (st, .error (.valueError "recv_ecc length should be ecc_bytes bytes"))
  else if eccLenBad bch calcEcc then
    (st, .error (.valueError "calc_ecc length should be ecc_bytes bytes"))
  else if synLenBad bch syn then
    (st, .error (.valueError "syn must have 2t elements"))
  else if core.nerr < 0 then
    if core.nerr = -EINVAL then
      ({ nerr := core.nerr, errloc := core.errloc }, .error (.valueError "invalid parameters"))
    else if core.nerr = -EBADMSG then
      ({ nerr := -1, errloc := core.errloc }, .ok (-1))
    else
      ({ nerr := core.nerr, errloc := core.errloc }, .error .nullReturn)
  else
    ({ nerr := core.nerr, errloc := core.errloc }, .ok core.nerr)

/-- The correction loop of BCH_correct in part_000 (lines 223-241): for each
location, locations at or beyond (data.len + ecc_bytes) * 8 raise IndexError,
locations whose byte index is below data.len flip a data bit, the rest flip
an ecc bit when an ecc buffer is present.  The in-loop readonly re-checks of
the C code are omitted because BCH_correct rejects readonly buffers before
the loop, making them constant there. -/
def part000Loop (dL eB : Nat) :
    List Nat → List Nat → Option (List Nat) →
    Except PyErr Unit × List Nat × Option (List Nat)
  | [], d, e => (.ok (), d, e)
  | b :: rest, d, e =>
    if (dL + eB) * 8 ≤ b then (.error (.indexError "uncorrectable error"), d, e)
    else if b / 8 < dL then
      part000Loop dL eB rest (flipByte d (b / 8) (b % 8)) e
    else
      match e with
      | some eb => part000Loop dL eB rest d (some (flipByte eb (b / 8 - dL) (b % 8)))
      | none => part000Loop dL eB rest d none

/-- BCH_correct of the part_000 binding (lines 196-251): rejects readonly
data, then a readonly ecc buffer, returns None doing nothing when the last
decode failed (self->nerr < 0), and otherwise applies the first nerr
locations of self->errloc.  The result triple is (Python result, data bytes
after the call, ecc bytes after the call). -/
def BCH_correct (bch : BchControl) (st : BCHState) (data : Buffer)
    (ecc : Option Buffer) :
    Except PyErr Unit × List Nat × Option (List Nat) :=
  if data.readonly then
    (.error (.valueError "data cannot be readonly"), data.bytes, ecc.map Buffer.bytes)
  else if (ecc.map Buffer.readonly).getD false then
    (.error (.valueError "ecc cannot be readonly"), data.bytes, ecc.map Buffer.bytes)
  else if st.nerr < 0 then
    (.ok (), data.bytes, ecc.map Buffer.bytes)
  else
    part000Loop data.bytes.length bch.ecc_bytes
      (st.errloc.take st.nerr.toNat) data.bytes (ecc.map Buffer.bytes)

/-- The correction loop of BCH_correct in src/src/bchlib.c (lines 257-270):
identical to the part_000 loop except that the data / ecc boundary and the
range bound use the accumulated self->msg_len instead of the live buffer
length. -/
def srcLoop (msgLen eB : Nat) :
    List Nat → List Nat → Option (List Nat) →
    Except PyErr Unit × List Nat × Option (List Nat)
  | [], d, e => (.ok (), d, e)
  | b :: rest, d, e =>
    if (msgLen + eB) * 8 ≤ b then (.error (.indexError "uncorrectable error"), d, e)
    else if b / 8 < msgLen then
      srcLoop msgLen eB rest (flipByte d (b / 8) (b % 8)) e
    else
      match e with
      | some eb => srcLoop msgLen eB rest d (some (flipByte eb (b / 8 - msgLen) (b % 8)))
      | none => srcLoop msgLen eB rest d none

/-- BCH_correct of the src/src/bchlib.c binding (lines 230-279).  Unlike
part_000, the self->nerr < 0 test comes first and jumps to cleanup, which
returns NULL with no exception set (modelled as nullReturn); the readonly
checks follow it. -/
def src_BCH_correct (bch : BchControl) (st : SrcState) (data : Buffer)
    (ecc : Option Buffer) :
    Except PyErr Unit × List Nat × Option (List Nat) :=
  if st.nerr < 0 then
    (.error .nullReturn, data.bytes, ecc.map Buffer.bytes)
  else if data.readonly then
    (.error (.valueError "data cannot be readonly"), data.bytes, ecc.map Buffer.bytes)
  else if (ecc.map Buffer.readonly).getD false then
    (.error (.valueError "ecc cannot be readonly"), data.bytes, ecc.map Buffer.bytes)
  else
    srcLoop st.msg_len bch.ecc_bytes
      (st.errloc.take st.nerr.toNat) data.bytes (ecc.map Buffer.bytes)

/-- The correction loop of BCH_decode_inplace in part_003 (lines 336-348):
the range bound is data.len * 8 + ecc.len * 8, data bits are flipped
unconditionally (data was checked writable before), and ecc bits are flipped
only when the ecc buffer is not readonly -- a readonly ecc buffer is
silently skipped, not rejected. -/
def inplaceLoop (dL eL : Nat) (eccRo : Bool) :
    List Nat → List Nat → List Nat →
    Except PyErr Unit × List Nat × List Nat
  | [], d, e => (.ok (), d, e)
  | b :: rest, d, e =>
    if dL * 8 + eL * 8 ≤ b then (.error (.indexError "uncorrectable error"), d, e)
    else if b < dL * 8 then
      inplaceLoop dL eL eccRo rest (flipByte d (b / 8) (b % 8)) e
    else if eccRo then inplaceLoop dL eL eccRo rest d e
    else inplaceLoop dL eL eccRo rest d (flipByte e (b / 8 - dL) (b % 8))

/-- BCH_decode_inplace of the part_003 binding (lines 286-360): rejects
readonly data, checks the ecc length, optionally reverses the data bytes in
place, runs the core decode (outcome given by the core argument), maps
-EINVAL to ValueError, -EBADMSG to the sentinel -1, applies the located
flips, reverses back on success, and returns the error count.  On the error
paths the in-place bit reversal is left applied, as in the C code.  The
result is (Python result, data bytes after the call, ecc bytes after the
call). -/
def BCH_decode_inplace (bch : BchControl) (reversed : Bool)
    (data ecc : Buffer) (core : CoreResult) :
    Except PyErr Int × List Nat × List Nat :=
  if data.readonly then
    (.error (.valueError "data must not be readonly"), data.bytes, ecc.bytes)
  else if ecc.bytes.length ≠ bch.ecc_bytes then
    (.error (.valueError "ecc length should be ecc_bytes bytes"), data.bytes, ecc.bytes)
  else
    let d0 := if reversed then reverseBytes data.bytes else data.bytes
    if core.nerr < 0 ∧ core.nerr ≠ -EBADMSG then
      if core.nerr = -EINVAL then
        (.error (.valueError "invalid parameters"), d0, ecc.bytes)
      else
        (.error .nullReturn, d0, ecc.bytes)
    else
      let nerr : Int := if core.nerr = -EBADMSG then -1 else core.nerr
      match inplaceLoop data.bytes.length ecc.bytes.length ecc.readonly
          (core.errloc.take nerr.toNat) d0 ecc.bytes with
      | (.error e, d1, e1) => (.error e, d1, e1)
      | (.ok _, d1, e1) => (.ok nerr, if reversed then reverseBytes d1 else d1, e1)

/-- The correction loop of Bch_correct in src/bchlib/bchlib.c (lines
207-218): it walks the locations from the last to the first (while (nerr--)),
range checked against data_len * 8 + ecc_len * 8, flips only data bits --
the ecc correction is commented out in this revision. -/
def bchCorrectLoop (dL eL : Nat) :
    List Nat → List Nat → Except PyErr (List Nat)
  | [], d => .ok d
  | b :: rest, d =>
    if dL * 8 + eL * 8 ≤ b then .error (.indexError "uncorrectable error")
    else if b < dL * 8 then bchCorrectLoop dL eL rest (flipByte d (b / 8) (b % 8))
    else bchCorrectLoop dL eL rest d

/-- Bch_correct of the oldest binding, src/bchlib/bchlib.c (lines 131-228):
exactly one of ecc and syn must be supplied; a syn sequence must have 2*t
elements; the core decode outcome (core argument) is then mapped: -EINVAL
raises ValueError, -EBADMSG raises OverflowError (too many errors or bad
message) -- an exception, not a sentinel return -- and any other negative
value returns NULL with no exception.  On success the located data bits of a
fresh copy of data are flipped and the copy is returned.  In the syn path
the C code reads an uninitialized ecc_len; the model uses 0 there. -/
def Bch_correct (bch : BchControl) (reversed : Bool) (data : List Nat)
    (ecc : Option (List Nat)) (syn : Option (List Nat)) (core : CoreResult) :
    Except PyErr (List Nat) :=
  if (ecc.isSome && syn.isSome) || (ecc.isNone && syn.isNone) then
    .error (.typeError "only one of ecc or syn permitted")
  else if synLenBad bch syn then
    .error (.valueError "syn must have 2t elements")
  else
    let d0 := if reversed then reverseBytes data else data
    if core.nerr < 0 then
      if core.nerr = -EINVAL then .error (.valueError "invalid parameters")
      else if core.nerr = -EBADMSG then
        .error (.overflowError "too many errors or bad message")
      else .error .nullReturn
    else
      match bchCorrectLoop data.length ((ecc.getD []).length)
          ((core.errloc.take core.nerr.toNat).reverse) d0 with
      | .error e => .error e
      | .ok d1 => .ok (if reversed then reverseBytes d1 else d1)

/-- Modelled from the spec: one doubling step of the antilog table
construction over GF(2^m) (spec section 4.1; the table builder of bch.c is
not under src/). -/
def alogStep (m poly x : Nat) : Nat :=
  if x * 2 < 2 ^ m then x * 2 else x * 2 ^^^ poly

/-- Modelled from the spec: alpha to the k over GF(2^m) via repeated
doubling and reduction by the primitive polynomial. -/
def alogPow (m poly : Nat) : Nat → Nat
  | 0 => 1
  | k + 1 => alogStep m poly (alogPow m poly k)

/-- Modelled from the spec: discrete logarithm over GF(2^m), the inverse of
alogPow on the nonzero field elements. -/
def gfLog (m poly s : Nat) : Nat :=
  (((List.range (2 ^ m - 1)).find? (fun k => alogPow m poly k == s))).getD 0

/-- Modelled from the spec: squaring in GF(2^m) through the tables,
S^2 = antilog[(2 * log S) mod n] (spec section 4.4). -/
def gfSqr (m poly s : Nat) : Nat :=
  if s = 0 then 0 else alogPow m poly ((2 * gfLog m poly s) % (2 ^ m - 1))

/-- Modelled from the spec: bch_compute_even_syndromes of the missing core
(bch.c): the even syndromes are the squares of the odd ones,
S_2i = S_i ^ 2 (spec section 4.4). -/
def compute_even_syndromes (bch : BchControl) (syn : List Nat) : List Nat :=
  (List.range bch.t).foldl
    (fun acc i => acc.set (2 * i + 1) (gfSqr bch.m bch.prim_poly (acc.getD i 0))) syn

/-- BCH_compute_even_syn of the part_000 binding (lines 253-294): the
sequence must have exactly 2*t elements, otherwise ValueError is raised
before any computation; on success the core even-syndrome computation is
applied to a local copy and returned. -/
def BCH_compute_even_syn (bch : BchControl) (syn : List Nat) :
    Except PyErr (List Nat) :=
  if syn.length ≠ 2 * bch.t then
    .error (.valueError "syn must have 2t elements")
  else
    .ok (compute_even_syndromes bch syn)

/-- One bit flip of the logical data+ecc block at bit position b, using the
same byte/bit arithmetic as the correct loops: byte index b / 8, bit b % 8,
ecc byte index b / 8 - dL. -/
def flipBlockBit (dL : Nat) (pr : List Nat × List Nat) (b : Nat) :
    List Nat × List Nat :=
  if b / 8 < dL then (flipByte pr.1 (b / 8) (b % 8), pr.2)
  else (pr.1, flipByte pr.2 (b / 8 - dL) (b % 8))

/-- Applying a list of bit flips to the data+ecc block. -/
def flipBlock (dL : Nat) (d e : List Nat) (ps : List Nat) :
    List Nat × List Nat :=
  ps.foldl (flipBlockBit dL) (d, e)

theorem getD_set_self (l : List Nat) : ∀ (i v : Nat), i < l.length →
    (l.set i v).getD i 0 = v := by
  induction l with
  | nil => intro i v h; simp at h
  | cons a t ih =>
    intro i v h
    cases i with
    | zero => rfl
    | succ n => exact ih n v (by simp at h; omega)

theorem getD_set_ne (l : List Nat) : ∀ (i j v : Nat), i ≠ j →
    (l.set i v).getD j 0 = l.getD j 0 := by
  induction l with
  | nil => intro i j v _; rfl
  | cons a t ih =>
    intro i j v hne
    cases i with
    | zero =>
      cases j with
      | zero => exact absurd rfl hne
      | succ m => rfl
    | succ n =>
      cases j with
      | zero => rfl
      | succ m => exact ih n m v (fun hh => hne (by rw [hh]))

theorem set_oob (l : List Nat) : ∀ (i v : Nat), l.length ≤ i → l.set i v = l := by
  induction l with
  | nil => intro i v _; rfl
  | cons a t ih =>
    intro i v h
    cases i with
    | zero => simp at h
    | succ n =>
      show a :: t.set n v = a :: t
      rw [ih n v (by simp at h; omega)]

theorem set_getD_self (l : List Nat) : ∀ i : Nat, i < l.length →
    l.set i (l.getD i 0) = l := by
  induction l with
  | nil => intro i h; simp at h
  | cons a t ih =>
    intro i h
    cases i with
    | zero => rfl
    | succ n =>
      show a :: t.set n (t.getD n 0) = a :: t
      rw [ih n (by simp at h; omega)]

theorem flipByte_length (l : List Nat) (i k : Nat) :
    (flipByte l i k).length = l.length :=
  List.length_set l i _

theorem flipByte_flipByte (l : List Nat) (i k : Nat) :
    flipByte (flipByte l i k) i k = l := by
  by_cases h : i < l.length
  · unfold flipByte
    rw [getD_set_self l i _ h, List.set_set, Nat.xor_cancel_right, set_getD_self l i h]
  · have hle : l.length ≤ i := Nat.le_of_not_lt h
    have h1 : flipByte l i k = l := by unfold flipByte; exact set_oob l i _ hle
    rw [h1, h1]

theorem flipByte_comm (l : List Nat) (i k j k2 : Nat) :
    flipByte (flipByte l i k) j k2 = flipByte (flipByte l j k2) i k := by
  by_cases hij : i = j
  · subst hij
    by_cases h : i < l.length
    · unfold flipByte
      rw [getD_set_self l i _ h, getD_set_self l i _ h, List.set_set, List.set_set,
        Nat.xor_assoc, Nat.xor_assoc, Nat.xor_comm (1 <<< k) (1 <<< k2)]
    · have hle : l.length ≤ i := Nat.le_of_not_lt h
      have h1 : flipByte l i k = l := by unfold flipByte; exact set_oob l i _ hle
      have h2 : flipByte l i k2 = l := by unfold flipByte; exact set_oob l i _ hle
      rw [h1, h2, h1]
  · unfold flipByte
    rw [getD_set_ne l i j _ hij, getD_set_ne l j i _ (fun hh => hij hh.symm),
      List.set_comm _ _ l hij]

theorem flipBlockBit_comm (dL : Nat) (pr : List Nat × List Nat) (b c : Nat) :
    flipBlockBit dL (flipBlockBit dL pr b) c =
      flipBlockBit dL (flipBlockBit dL pr c) b := by
  unfold flipBlockBit
  by_cases hb : b / 8 < dL <;> by_cases hc : c / 8 < dL
  · simp only [if_pos hb, if_pos hc]
    exact congrArg (fun x => (x, pr.2)) (flipByte_comm _ _ _ _ _)
  · simp only [if_pos hb, if_neg hc]
  · simp only [if_neg hb, if_pos hc]
  · simp only [if_neg hb, if_neg hc]
    exact congrArg (fun x => (pr.1, x)) (flipByte_comm _ _ _ _ _)

theorem flipBlockBit_invol (dL : Nat) (pr : List Nat × List Nat) (b : Nat) :
    flipBlockBit dL (flipBlockBit dL pr b) b = pr := by
  unfold flipBlockBit
  by_cases hb : b / 8 < dL
  · simp only [if_pos hb]
    rw [flipByte_flipByte]
  · simp only [if_neg hb]
    rw [flipByte_flipByte]

theorem flipBlockBit_foldl (dL : Nat) (ps : List Nat) :
    ∀ (pr : List Nat × List Nat) (b : Nat),
      flipBlockBit dL (ps.foldl (flipBlockBit dL) pr) b =
        ps.foldl (flipBlockBit dL) (flipBlockBit dL pr b) := by
  induction ps with
  | nil => intro pr b; rfl
  | cons a t ih =>
    intro pr b
    simp only [List.foldl_cons]
    rw [ih (flipBlockBit dL pr a) b, flipBlockBit_comm dL pr a b]

theorem foldl_flip_cancel (dL : Nat) (ps : List Nat) :
    ∀ pr : List Nat × List Nat,
      ps.foldl (flipBlockBit dL) (ps.foldl (flipBlockBit dL) pr) = pr := by
  induction ps with
  | nil => intro pr; rfl
  | cons a t ih =>
    intro pr
    simp only [List.foldl_cons]
    rw [flipBlockBit_foldl dL t (flipBlockBit dL pr a) a, flipBlockBit_invol dL pr a,
      ih pr]

theorem foldl_flip_lengths (dL : Nat) (ps : List Nat) :
    ∀ pr : List Nat × List Nat,
      (ps.foldl (flipBlockBit dL) pr).1.length = pr.1.length ∧
      (ps.foldl (flipBlockBit dL) pr).2.length = pr.2.length := by
  induction ps with
  | nil => intro pr; exact ⟨rfl, rfl⟩
  | cons a t ih =>
    intro pr
    simp only [List.foldl_cons]
    have h := ih (flipBlockBit dL pr a)
    have h1 : (flipBlockBit dL pr a).1.length = pr.1.length := by
      unfold flipBlockBit
      by_cases hb : a / 8 < dL <;> simp [hb, flipByte_length]
    have h2 : (flipBlockBit dL pr a).2.length = pr.2.length := by
      unfold flipBlockBit
      by_cases hb : a / 8 < dL <;> simp [hb, flipByte_length]
    exact ⟨h.1.trans h1, h.2.trans h2⟩

theorem part000Loop_eq_flipBlock (dL eB : Nat) (ps : List Nat) :
    ∀ (d e : List Nat), (∀ b ∈ ps, b < (dL + eB) * 8) →
      part000Loop dL eB ps d (some e) =
        (.ok (), (flipBlock dL d e ps).1, some (flipBlock dL d e ps).2) := by
  induction ps with
  | nil => intro d e _; rfl
  | cons b t ih =>
    intro d e hr
    have hb : b < (dL + eB) * 8 := hr b (List.mem_cons_self b t)
    have hnot : ¬ ((dL + eB) * 8 ≤ b) := by omega
    have ht : ∀ x ∈ t, x < (dL + eB) * 8 := fun x hx => hr x (List.mem_cons_of_mem b hx)
    show (if (dL + eB) * 8 ≤ b then _ else _) = _
    rw [if_neg hnot]
    by_cases hd : b / 8 < dL
    · rw [if_pos hd, ih _ _ ht]
      have hstep : flipBlock dL d e (b :: t) =
          flipBlock dL (flipByte d (b / 8) (b % 8)) e t := by
        unfold flipBlock flipBlockBit
        simp [List.foldl_cons, if_pos hd]
      rw [hstep]
    · rw [if_neg hd]
      show part000Loop dL eB t d (some (flipByte e (b / 8 - dL) (b % 8))) = _
      rw [ih _ _ ht]
      have hstep : flipBlock dL d e (b :: t) =
          flipBlock dL d (flipByte e (b / 8 - dL) (b % 8)) t := by
        unfold flipBlock flipBlockBit
        simp [List.foldl_cons, if_neg hd]
      rw [hstep]

theorem mFromPolyGo_eq : ∀ (fuel tmp m : Nat), tmp < 2 ^ fuel →
    mFromPolyGo fuel tmp m = m + Nat.log2 tmp := by
  intro fuel
  induction fuel with
  | zero =>
    intro tmp m h
    have h1 : tmp < 1 := by simpa using h
    have h0 : tmp = 0 := by omega
    subst h0
    show m = m + Nat.log2 0
    rw [Nat.log2]
    simp
  | succ f ih =>
    intro tmp m h
    show (if tmp / 2 = 0 then m else mFromPolyGo f (tmp / 2) (m + 1)) = m + Nat.log2 tmp
    by_cases h2 : tmp / 2 = 0
    · rw [if_pos h2, Nat.log2, if_neg (by omega : ¬ tmp ≥ 2)]
      omega
    · rw [if_neg h2]
      have hp : 2 ^ (f + 1) = 2 ^ f * 2 := by rw [Nat.pow_succ]
      have hh : tmp / 2 < 2 ^ f := by omega
      have hlog : Nat.log2 tmp = Nat.log2 (tmp / 2) + 1 := by
        rw [Nat.log2]
        exact if_pos (by omega)
      rw [ih (tmp / 2) (m + 1) hh, hlog]
      omega

theorem mFromPoly_eq_log2 (poly : Nat) (h : poly < 2 ^ 32) :
    mFromPoly poly = Nat.log2 poly := by
  unfold mFromPoly
  simpa using mFromPolyGo_eq 32 poly 0 h

/-- C6: configuration with neither a field order m nor a nonzero primitive
polynomial fails with a ValueError (InvalidParameters) before the core
bch_init is ever reached, so no codec object is produced; this covers in
particular Configure(t = 10, primitive_poly = 0, m = None). -/
theorem c6_init_requires_m_or_poly (t : Int) :
    BCH_init_args t 0 none =
      .error (.valueError "m and/or poly must be provided") := rfl

/-- C7: when a primitive polynomial is supplied but m is not, BCH_init
selects m as the index of the highest set bit of the polynomial
(2 ^ m <= poly < 2 ^ (m + 1), equivalently m = log2 poly) and passes exactly
that m to the field construction.  The polynomial is a C unsigned int,
hence the 2 ^ 32 bound. -/
theorem c7_init_m_from_poly (t : Int) (poly : Nat) (h0 : poly ≠ 0)
    (h32 : poly < 2 ^ 32) :
    BCH_init_args t poly none = .ok (mFromPoly poly, t, poly) ∧
    mFromPoly poly = Nat.log2 poly ∧
    2 ^ mFromPoly poly ≤ poly ∧ poly < 2 ^ (mFromPoly poly + 1) := by
  have hlog := mFromPoly_eq_log2 poly h32
  refine ⟨?_, hlog, ?_, ?_⟩
  · unfold BCH_init_args
    rw [if_neg h0]
  · rw [hlog]; exact Nat.log2_self_le h0
  · rw [hlog]; exact Nat.lt_log2_self

theorem c7_witness :
    BCH_init_args 4 8219 none = .ok (mFromPoly 8219, 4, 8219) ∧
    mFromPoly 8219 = Nat.log2 8219 ∧
    2 ^ mFromPoly 8219 ≤ 8219 ∧ 8219 < 2 ^ (mFromPoly 8219 + 1) :=
  c7_init_m_from_poly 4 8219 (by decide) (by decide)

/-- C8: the per-byte transform of reverse_bytes is pure (a function of the
input byte alone), maps b7 b6 ... b0 to b0 b1 ... b7 (it agrees with the
specification-side bit reversal rev8spec on every byte), and is involutive:
applying reverse_bytes twice to any buffer of bytes restores it exactly. -/
theorem c8_reverse_bytes_involutive :
    (∀ b : Nat, b < 256 → rev8 b = rev8spec b ∧ rev8 (rev8 b) = b) ∧
    (∀ l : List Nat, (∀ x ∈ l, x < 256) → reverseBytes (reverseBytes l) = l) := by
  have hinv : ∀ b : Nat, b < 256 → rev8 b = rev8spec b ∧ rev8 (rev8 b) = b := by
    set_option maxRecDepth 4000 in decide
  refine ⟨hinv, ?_⟩
  intro l
  induction l with
  | nil => intro _; rfl
  | cons a t ih =>
    intro hl
    have ha : a < 256 := hl a (List.mem_cons_self a t)
    have ht : ∀ x ∈ t, x < 256 := fun x hx => hl x (List.mem_cons_of_mem a hx)
    show rev8 (rev8 a) :: reverseBytes (reverseBytes t) = a :: t
    rw [(hinv a ha).2, ih ht]

theorem c8_witness :
    rev8 5 = rev8spec 5 ∧ rev8 (rev8 5) = 5 ∧
    reverseBytes (reverseBytes [1, 160]) = [1, 160] :=
  ⟨(c8_reverse_bytes_involutive.1 5 (by decide)).1,
    (c8_reverse_bytes_involutive.1 5 (by decide)).2,
    c8_reverse_bytes_involutive.2 [1, 160] (by decide)⟩

/-- C4: a syndrome sequence whose length is not exactly 2*t makes both the
syndrome-supplied decode path and the even-syndrome computation fail with
the wrong-length ValueError before any syndrome computation: the decode
result is the same error for every core outcome and leaves the state
untouched, and BCH_compute_even_syn errors without invoking
compute_even_syndromes. -/
theorem c4_syn_length_guard (bch : BchControl) (st : BCHState) (s : List Nat)
    (core : CoreResult) (h : s.length ≠ 2 * bch.t) :
    BCH_decode bch st none none none (some s) core =
      (st, .error (.valueError "syn must have 2t elements")) ∧
    BCH_compute_even_syn bch s =
      .error (.valueError "syn must have 2t elements") := by
  constructor
  · simp [BCH_decode, eccLenBad, synLenBad, h]
  · simp [BCH_compute_even_syn, h]

theorem part000Loop_cons (dL eB b : Nat) (rest : List Nat) (d : List Nat)
    (e : Option (List Nat)) :
    part000Loop dL eB (b :: rest) d e =
      if (dL + eB) * 8 ≤ b then (.error (.indexError "uncorrectable error"), d, e)
      else if b / 8 < dL then part000Loop dL eB rest (flipByte d (b / 8) (b % 8)) e
      else
        match e with
        | some eb => part000Loop dL eB rest d (some (flipByte eb (b / 8 - dL) (b % 8)))
        | none => part000Loop dL eB rest d none := rfl

/-- C2: with the error location b recorded by the last decode, BCH_correct
flips bit b of the data buffer when b is below data_len * 8, flips the
corresponding ecc bit when b is in [data_len * 8, (data_len + ecc_bytes) * 8)
and a writable ecc buffer of the configured length was supplied, and raises
IndexError (uncorrectable error) instead of silently ignoring a location at
or beyond (data_len + ecc_bytes) * 8. -/
theorem c2_correct_location_cases (bch : BchControl) (d e : List Nat) (b : Nat)
    (he : e.length = bch.ecc_bytes) :
    (b < d.length * 8 →
      BCH_correct bch ⟨1, [b]⟩ ⟨d, false⟩ (some ⟨e, false⟩) =
        (.ok (), flipByte d (b / 8) (b % 8), some e)) ∧
    (d.length * 8 ≤ b → b < (d.length + bch.ecc_bytes) * 8 →
      BCH_correct bch ⟨1, [b]⟩ ⟨d, false⟩ (some ⟨e, false⟩) =
        (.ok (), d, some (flipByte e (b / 8 - d.length) (b % 8)))) ∧
    ((d.length + bch.ecc_bytes) * 8 ≤ b →
      BCH_correct bch ⟨1, [b]⟩ ⟨d, false⟩ (some ⟨e, false⟩) =
        (.error (.indexError "uncorrectable error"), d, some e)) := by
  have hred : BCH_correct bch ⟨1, [b]⟩ ⟨d, false⟩ (some ⟨e, false⟩) =
      part000Loop d.length bch.ecc_bytes [b] d (some e) := by
    simp [BCH_correct]
  refine ⟨fun h1 => ?_, fun h1 h2 => ?_, fun h1 => ?_⟩ <;> rw [hred, part000Loop_cons]
  · have hnot : ¬ ((d.length + bch.ecc_bytes) * 8 ≤ b) := by omega
    have hd8 : b / 8 < d.length := by omega
    rw [if_neg hnot, if_pos hd8]
    rfl
  · have hnot : ¬ ((d.length + bch.ecc_bytes) * 8 ≤ b) := by omega
    have hd8 : ¬ (b / 8 < d.length) := by omega
    rw [if_neg hnot, if_neg hd8]
    rfl
  · rw [if_pos h1]

theorem c2_witness :
    BCH_correct ⟨5, 2, 2, 37⟩ ⟨1, [3]⟩ ⟨[7], false⟩ (some ⟨[0, 0], false⟩) =
      (.ok (), flipByte [7] (3 / 8) (3 % 8), some [0, 0]) :=
  (c2_correct_location_cases ⟨5, 2, 2, 37⟩ [7] [0, 0] 3 (by decide)).1 (by decide)

theorem inplaceLoop_cons (dL eL : Nat) (eccRo : Bool) (b : Nat)
    (rest d e : List Nat) :
    inplaceLoop dL eL eccRo (b :: rest) d e =
      if dL * 8 + eL * 8 ≤ b then (.error (.indexError "uncorrectable error"), d, e)
      else if b < dL * 8 then inplaceLoop dL eL eccRo rest (flipByte d (b / 8) (b % 8)) e
      else if eccRo then inplaceLoop dL eL eccRo rest d e
      else inplaceLoop dL eL eccRo rest d (flipByte e (b / 8 - dL) (b % 8)) := rfl

theorem inplaceLoop_ro_ecc (dL eL : Nat) (ps : List Nat) :
    ∀ d e : List Nat, (inplaceLoop dL eL true ps d e).2.2 = e := by
  induction ps with
  | nil => intro d e; rfl
  | cons b t ih =>
    intro d e
    rw [inplaceLoop_cons]
    by_cases h1 : dL * 8 + eL * 8 ≤ b
    · rw [if_pos h1]
    · rw [if_neg h1]
      by_cases h2 : b < dL * 8
      · rw [if_pos h2]; exact ih _ e
      · rw [if_neg h2, if_pos rfl]; exact ih d e

/-- C3 (amended): no correcting operation ever mutates a readonly buffer.
BCH_correct (part_000) rejects a readonly data buffer and a readonly ecc
buffer with ValueError, leaving both untouched, and BCH_decode_inplace
(part_003) rejects a readonly data buffer -- but a readonly ecc buffer
passed to BCH_decode_inplace is not rejected: its flips are silently
skipped and the ecc bytes come back unchanged. -/
theorem c3_readonly_buffers (bch : BchControl) :
    (∀ (st : BCHState) (d : List Nat) (e : Option Buffer),
      BCH_correct bch st ⟨d, true⟩ e =
        (.error (.valueError "data cannot be readonly"), d, e.map Buffer.bytes)) ∧
    (∀ (st : BCHState) (d eb : List Nat),
      BCH_correct bch st ⟨d, false⟩ (some ⟨eb, true⟩) =
        (.error (.valueError "ecc cannot be readonly"), d, some eb)) ∧
    (∀ (rev : Bool) (d : List Nat) (e : Buffer) (core : CoreResult),
      BCH_decode_inplace bch rev ⟨d, true⟩ e core =
        (.error (.valueError "data must not be readonly"), d, e.bytes)) ∧
    (∀ (rev : Bool) (d eb : List Nat) (core : CoreResult),
      (BCH_decode_inplace bch rev ⟨d, false⟩ ⟨eb, true⟩ core).2.2 = eb) := by
  refine ⟨fun st d e => ?_, fun st d eb => ?_, fun rev d e core => ?_,
    fun rev d eb core => ?_⟩
  · simp [BCH_correct]
  · simp [BCH_correct]
  · simp [BCH_decode_inplace]
  · unfold BCH_decode_inplace
    by_cases hlen : eb.length ≠ bch.ecc_bytes
    · simp [hlen]
    · simp only [hlen]
      by_cases hneg : core.nerr < 0 ∧ core.nerr ≠ -EBADMSG
      · have hne74 : core.nerr ≠ -74 := by simpa [EBADMSG] using hneg.2
        by_cases hinval : core.nerr = -EINVAL
        · simp [hneg, hinval, EINVAL, EBADMSG]
        · have hne22 : core.nerr ≠ -22 := by simpa [EINVAL] using hinval
          simp [hneg, hne74, hne22, EINVAL, EBADMSG]
      · have h22 := inplaceLoop_ro_ecc d.length eb.length
          (core.errloc.take (if core.nerr = -EBADMSG then (-1 : Int) else core.nerr).toNat)
          (if rev then reverseBytes d else d) eb
        rcases hres : inplaceLoop d.length eb.length true
            (core.errloc.take (if core.nerr = -EBADMSG then (-1 : Int) else core.nerr).toNat)
            (if rev then reverseBytes d else d) eb with ⟨r, d1, e1⟩
        have he1 : e1 = eb := by rw [hres] at h22; exact h22
        cases r with
        | error pe => simp [hneg, hres, he1]
        | ok u => simp [hneg, hres, he1]

/-- C3 counterexample: BCH_decode_inplace with a writable data buffer, a
readonly ecc buffer of the right length, and a decode outcome locating one
error inside the ecc region returns success (nerr = 1) while silently
skipping the ecc flip -- no InvalidArgument is raised for the readonly ecc
buffer. -/
theorem c3_counterexample :
    BCH_decode_inplace ⟨5, 1, 1, 37⟩ false ⟨[0], false⟩ ⟨[1], true⟩ ⟨1, [8]⟩ =
      (.ok 1, [0], [1]) := rfl

/-- C5 (amended): in the part_000 binding, a core decode outcome of -EBADMSG
(more errors than the code can correct) is surfaced by BCH_decode as the
sentinel return value -1 with self->nerr set to -1, not as an exception. -/
theorem c5_decode_returns_sentinel (bch : BchControl) (st : BCHState)
    (core : CoreResult) (h : core.nerr = -EBADMSG) :
    BCH_decode bch st none none none none core =
      ({ nerr := -1, errloc := core.errloc }, .ok (-1)) := by
  unfold BCH_decode
  simp [eccLenBad, synLenBad, h, EBADMSG, EINVAL]

theorem c5_witness :
    BCH_decode ⟨5, 2, 2, 37⟩ ⟨0, []⟩ none none none none ⟨-74, []⟩ =
      ({ nerr := -1, errloc := [] }, .ok (-1)) :=
  c5_decode_returns_sentinel ⟨5, 2, 2, 37⟩ ⟨0, []⟩ ⟨-74, []⟩ rfl

/-- C5 counterexample: the oldest binding revision maps the same -EBADMSG
outcome to an OverflowError exception (too many errors or bad message) in
Bch_correct, an exception-like abort rather than a sentinel error count. -/
theorem c5_counterexample :
    Bch_correct ⟨5, 2, 2, 37⟩ false [0] (some [0, 0]) none ⟨-74, []⟩ =
      .error (.overflowError "too many errors or bad message") := rfl

/-- C9 (amended): the value returned by BCH_decode does not depend on the
mutable state left behind by earlier calls -- it is a function of the
arguments, the configuration, and the core decode outcome alone.  (The
statefulness refuted by the counterexample is confined to BCH_correct
consuming nerr and errloc from the preceding decode.) -/
theorem c9_decode_return_stateless (bch : BchControl) (s1 s2 : BCHState)
    (data recvEcc calcEcc : Option Buffer) (syn : Option (List Nat))
    (core : CoreResult) :
    (BCH_decode bch s1 data recvEcc calcEcc syn core).2 =
      (BCH_decode bch s2 data recvEcc calcEcc syn core).2 := by
  cases hA : eccLenBad bch recvEcc <;> cases hB : eccLenBad bch calcEcc <;>
    cases hC : synLenBad bch syn <;> simp [BCH_decode, hA, hB, hC]

/-- C9 counterexample: a decode call leaves behind nerr and errloc, and a
later BCH_correct call with identical arguments returns a different result
than it does from the initial state -- calls are not stateless relative to
prior calls. -/
theorem c9_counterexample :
    BCH_correct ⟨5, 1, 1, 37⟩
        (BCH_decode ⟨5, 1, 1, 37⟩ ⟨0, []⟩ (some ⟨[0], false⟩) none none none
          ⟨1, [0]⟩).1
        ⟨[1], false⟩ none ≠
      BCH_correct ⟨5, 1, 1, 37⟩ ⟨0, []⟩ ⟨[1], false⟩ none := by decide

/-- C10 (amended): after a failed decode (negative self->nerr) a correct
call applies no bit flips and leaves both buffers byte-for-byte unchanged;
the part_000 BCH_correct returns success (None), while the src/src variant
jumps to cleanup first and returns NULL with no exception set instead of
returning successfully. -/
theorem c10_skip_when_decode_failed (bch : BchControl) (st : BCHState)
    (st2 : SrcState) (data : Buffer) (ecc : Option Buffer)
    (hn : st.nerr < 0) (hn2 : st2.nerr < 0) (hd : data.readonly = false)
    (he : (ecc.map Buffer.readonly).getD false = false) :
    BCH_correct bch st data ecc = (.ok (), data.bytes, ecc.map Buffer.bytes) ∧
    src_BCH_correct bch st2 data ecc =
      (.error .nullReturn, data.bytes, ecc.map Buffer.bytes) := by
  constructor
  · unfold BCH_correct
    simp [hd, he, hn]
  · unfold src_BCH_correct
    simp [hn2]

theorem c10_witness :
    BCH_correct ⟨5, 2, 2, 37⟩ ⟨-1, []⟩ ⟨[7], false⟩ none = (.ok (), [7], none) ∧
    src_BCH_correct ⟨5, 2, 2, 37⟩ ⟨-1, [], 4⟩ ⟨[7], false⟩ none =
      (.error .nullReturn, [7], none) :=
  c10_skip_when_decode_failed ⟨5, 2, 2, 37⟩ ⟨-1, []⟩ ⟨-1, [], 4⟩ ⟨[7], false⟩ none
    (by decide) (by decide) rfl rfl

/-- C10 counterexample: in the src/src binding, a correct call after a
failed decode (nerr = -1) does leave the buffers unchanged but returns NULL
with no exception set -- it does not return successfully. -/
theorem c10_counterexample :
    src_BCH_correct ⟨5, 2, 2, 37⟩ ⟨-1, [], 4⟩ ⟨[7], false⟩ none =
      (.error .nullReturn, [7], none) := rfl

theorem c4_witness :
    BCH_decode ⟨5, 2, 2, 37⟩ ⟨0, []⟩ none none none (some [1, 2, 3]) ⟨0, []⟩ =
      (⟨0, []⟩, .error (.valueError "syn must have 2t elements")) ∧
    BCH_compute_even_syn ⟨5, 2, 2, 37⟩ [1, 2, 3] =
      .error (.valueError "syn must have 2t elements") :=
  c4_syn_length_guard ⟨5, 2, 2, 37⟩ ⟨0, []⟩ [1, 2, 3] ⟨0, []⟩ (by decide)

/-- C1: round trip through the part_000 binding.  For any original block
M and its ecc (dataB, eccB), any set of at most t distinct bit-flip
positions inside the combined block, and a core decode outcome reporting
exactly those positions (the core bch_decode is not under src/; per the
spec, sections 4.4-4.6 and 8, it locates the flipped positions whenever at
most t bits were flipped), BCH_decode on the flipped block returns the flip
count and the subsequent BCH_correct restores exactly dataB and eccB. -/
theorem c1_round_trip (bch : BchControl) (st : BCHState)
    (dataB eccB flips : List Nat) (core : CoreResult)
    (hecc : eccB.length = bch.ecc_bytes)
    (hnodup : flips.Nodup)
    (hcount : flips.length ≤ bch.t)
    (hrange : ∀ b ∈ flips, b < (dataB.length + bch.ecc_bytes) * 8)
    (hcn : core.nerr = (flips.length : Int))
    (hcl : core.errloc = flips) :
    (BCH_decode bch st (some ⟨(flipBlock dataB.length dataB eccB flips).1, false⟩)
        (some ⟨(flipBlock dataB.length dataB eccB flips).2, false⟩) none none
        core).2 =
      .ok (flips.length : Int) ∧
    BCH_correct bch
        (BCH_decode bch st
          (some ⟨(flipBlock dataB.length dataB eccB flips).1, false⟩)
          (some ⟨(flipBlock dataB.length dataB eccB flips).2, false⟩) none none
          core).1
        ⟨(flipBlock dataB.length dataB eccB flips).1, false⟩
        (some ⟨(flipBlock dataB.length dataB eccB flips).2, false⟩) =
      (.ok (), dataB, some eccB) := by
  set fd := (flipBlock dataB.length dataB eccB flips).1 with hfd
  set fe := (flipBlock dataB.length dataB eccB flips).2 with hfe
  have hfdlen : fd.length = dataB.length := by
    rw [hfd]
    exact (foldl_flip_lengths dataB.length flips (dataB, eccB)).1
  have hfelen : fe.length = bch.ecc_bytes := by
    rw [hfe]
    exact ((foldl_flip_lengths dataB.length flips (dataB, eccB)).2).trans hecc
  have hnn : ¬ core.nerr < 0 := by rw [hcn]; omega
  have hdec : BCH_decode bch st (some ⟨fd, false⟩) (some ⟨fe, false⟩) none none
      core = ({ nerr := core.nerr, errloc := core.errloc }, .ok core.nerr) := by
    simp [BCH_decode, eccLenBad, synLenBad, hfelen, hnn]
  have hcorrect : BCH_correct bch { nerr := core.nerr, errloc := core.errloc }
      ⟨fd, false⟩ (some ⟨fe, false⟩) =
      part000Loop fd.length bch.ecc_bytes flips fd (some fe) := by
    unfold BCH_correct
    simp [hnn, hcl, hcn, Int.toNat_natCast, List.take_length]
  have hloop := part000Loop_eq_flipBlock fd.length bch.ecc_bytes flips fd fe
    (fun b hb => by rw [hfdlen]; exact hrange b hb)
  have hcancel : flipBlock fd.length fd fe flips = (dataB, eccB) := by
    rw [hfdlen, hfd, hfe]
    show flips.foldl (flipBlockBit dataB.length)
        ((flips.foldl (flipBlockBit dataB.length) (dataB, eccB)).1,
          (flips.foldl (flipBlockBit dataB.length) (dataB, eccB)).2) = (dataB, eccB)
    rw [Prod.mk.eta]
    exact foldl_flip_cancel dataB.length flips (dataB, eccB)
  refine ⟨by rw [hdec, hcn], ?_⟩
  rw [hdec]
  show BCH_correct bch { nerr := core.nerr, errloc := core.errloc }
      ⟨fd, false⟩ (some ⟨fe, false⟩) = (.ok (), dataB, some eccB)
  rw [hcorrect, hloop, hcancel]

theorem c1_round_trip_witness :
    (BCH_decode ⟨5, 2, 2, 37⟩ ⟨0, []⟩
        (some ⟨(flipBlock (List.length [170]) [170] [1, 2] [3, 17]).1, false⟩)
        (some ⟨(flipBlock (List.length [170]) [170] [1, 2] [3, 17]).2, false⟩)
        none none ⟨2, [3, 17]⟩).2 = .ok 2 ∧
    BCH_correct ⟨5, 2, 2, 37⟩
        (BCH_decode ⟨5, 2, 2, 37⟩ ⟨0, []⟩
          (some ⟨(flipBlock (List.length [170]) [170] [1, 2] [3, 17]).1, false⟩)
          (some ⟨(flipBlock (List.length [170]) [170] [1, 2] [3, 17]).2, false⟩)
          none none ⟨2, [3, 17]⟩).1
        ⟨(flipBlock (List.length [170]) [170] [1, 2] [3, 17]).1, false⟩
        (some ⟨(flipBlock (List.length [170]) [170] [1, 2] [3, 17]).2, false⟩) =
      (.ok (), [170], some [1, 2]) :=
  c1_round_trip ⟨5, 2, 2, 37⟩ ⟨0, []⟩ [170] [1, 2] [3, 17] ⟨2, [3, 17]⟩
    (by decide) (by decide) (by decide) (by decide) (by decide) (by decide)

end PyBchlib
